import Mathlib

/-!
Shallow embedding of `src/request.rs` from the `irmars` repository.

Rust `String` values are modelled as `List Char`.  Rust's `String` ordering is
byte-wise lexicographic over the UTF-8 encoding, which coincides with
codepoint-wise lexicographic order over the character sequence, so `strCmp`
below compares characters by their codepoint (`Char.toNat`).
Rust's `Ordering` is Lean's `Ordering` (`.lt`, `.eq`, `.gt`).
JSON values are modelled by an explicit `Json` AST whose objects are ordered
key/value lists (serde emits fields in call order).
-/

/-- Three-way comparison of characters by codepoint, modelling Rust's
byte-wise comparison of UTF-8 encoded strings. -/
def charCmp (a b : Char) : Ordering :=
  if a.toNat < b.toNat then .lt
  else if a.toNat = b.toNat then .eq
  else .gt

/-- Lexicographic three-way comparison of strings (`impl Ord for String`). -/
def strCmp : List Char → List Char → Ordering
  | [], [] => .eq
  | [], _ :: _ => .lt
  | _ :: _, [] => .gt
  | a :: as, b :: bs =>
    match charCmp a b with
    | .eq => strCmp as bs
    | o => o

/-- Three-way comparison of booleans (`impl Ord for bool`): false < true. -/
def boolCmp : Bool → Bool → Ordering
  | false, false => .eq
  | false, true => .lt
  | true, false => .gt
  | true, true => .eq

/-- Three-way comparison of `Option<String>` per Rust's derived
`Ord for Option`: `None` is less than `Some`, and `Some` compares inner. -/
def optStrCmp : Option (List Char) → Option (List Char) → Ordering
  | none, none => .eq
  | none, some _ => .lt
  | some _, none => .gt
  | some a, some b => strCmp a b

/-- `enum Error { NotAnAttributeTypeIdentifier }` from `request.rs`. -/
inductive Error where
  | NotAnAttributeTypeIdentifier
deriving DecidableEq

/-- `struct AttributeType` from `request.rs`: scheme, issuer, credential and
attribute components of an IRMA attribute identifier.  The Rust field
`attribute` is named `attr` here because `attribute` is a Lean keyword. -/
structure AttributeType where
  scheme : List Char
  issuer : List Char
  credential : List Char
  attr : List Char
deriving DecidableEq

/-- Rust's derived `Ord for AttributeType`: lexicographic over the fields in
declaration order (scheme, issuer, credential, attribute). -/
def AttributeType.cmp (a b : AttributeType) : Ordering :=
  match strCmp a.scheme b.scheme with
  | .eq =>
    match strCmp a.issuer b.issuer with
    | .eq =>
      match strCmp a.credential b.credential with
      | .eq => strCmp a.attr b.attr
      | o => o
    | o => o
  | o => o

/-- Rust's derived `PartialEq for AttributeType`: all four fields equal. -/
def AttributeType.beq (a b : AttributeType) : Bool :=
  a.scheme == b.scheme && a.issuer == b.issuer &&
    a.credential == b.credential && a.attr == b.attr

/-- `struct Attribute` from `request.rs`: an `AttributeType` plus an optional
required value. -/
structure Attribute where
  atype : AttributeType
  value : Option (List Char)
deriving DecidableEq

/-- The hand-written `impl Ord for Attribute` from `request.rs`: delegates to
the `atype` field only, ignoring `value`. -/
def Attribute.cmp (a b : Attribute) : Ordering :=
  AttributeType.cmp a.atype b.atype

/-- Rust's derived `PartialEq for Attribute`: compares `atype` and `value`. -/
def Attribute.beq (a b : Attribute) : Bool :=
  AttributeType.beq a.atype b.atype && a.value == b.value

/-- Rust's derived `PartialOrd for Attribute` (field-by-field, `atype` then
`value`); on these field types it always returns `some`. -/
def Attribute.pOrdCmp (a b : Attribute) : Option Ordering :=
  some (match AttributeType.cmp a.atype b.atype with
        | .eq => optStrCmp a.value b.value
        | o => o)

/-- `str::split('.')` specialised to the dot separator: splits a character
list at every dot, keeping empty segments; the split of the empty string is
one empty segment, matching Rust. -/
def splitDot : List Char → List (List Char)
  | [] => [[]]
  | c :: rest =>
    let groups := splitDot rest
    if c = '.' then [] :: groups
    else (c :: groups.headI) :: groups.tail

/-- Joining a list of segments with dots; inverse of `splitDot`. -/
def joinDot : List (List Char) → List Char
  | [] => []
  | [g] => g
  | g :: gs => g ++ '.' :: joinDot gs

/-- `Attribute::new` from `request.rs`: splits the identifier on dots and
succeeds exactly when `collect_tuple` gets a 4-tuple, i.e. when the split
yields exactly four segments. -/
def Attribute.new (atype : List Char) (value : Option (List Char)) :
    Except Error Attribute :=
  match splitDot atype with
  | [scheme, issuer, credential, attr] =>
    .ok { atype := { scheme := scheme, issuer := issuer,
                     credential := credential, attr := attr },
          value := value }
  | _ => .error .NotAnAttributeTypeIdentifier

/-- `struct AttributeRequest` from `request.rs`: an attribute plus the
`not_null` flag.  The Rust field `attribute` is named `attrReq` here because
`attribute` is a Lean keyword. -/
structure AttributeRequest where
  attrReq : Attribute
  not_null : Bool
deriving DecidableEq

/-- Rust's derived `Ord for AttributeRequest`: compares the `attribute` field
first (through the hand-written `Ord for Attribute`), then `not_null`. -/
def AttributeRequest.cmp (a b : AttributeRequest) : Ordering :=
  match Attribute.cmp a.attrReq b.attrReq with
  | .eq => boolCmp a.not_null b.not_null
  | o => o

/-- A three-way comparator that behaves like a total order on the compared
keys: reflexively `.eq`, antisymmetric under `swap`, substitutive on `.eq`
and transitive on `.lt`. -/
structure LawfulCmp {α : Type} (f : α → α → Ordering) : Prop where
  refl : ∀ a, f a a = .eq
  swap_eq : ∀ a b, (f a b).swap = f b a
  eq_congr : ∀ {a b : α} (c : α), f a b = .eq → f a c = f b c
  lt_trans : ∀ {a b c : α}, f a b = .lt → f b c = .lt → f a c = .lt

/-- Lexicographic combination of two comparators: the second one breaks the
ties of the first, exactly like chained field comparison in a Rust derived
`Ord`. -/
def lexCmp {α : Type} (f g : α → α → Ordering) (a b : α) : Ordering :=
  match f a b with
  | .eq => g a b
  | o => o

/-! ## JSON wire model

serde_json values; objects carry their fields as an ordered key/value list,
which captures the field order serde emits and lets lookup model how a
derived deserializer reads fields by name while ignoring unknown keys. -/

inductive Json where
  | null : Json
  | bool : Bool → Json
  | str : List Char → Json
  | arr : List Json → Json
  | obj : List (List Char × Json) → Json

/-- Conjunction of attribute requests: tuple struct `AttributeCon` wraps a
`Vec` and serializes transparently, so it is modelled as a list. -/
abbrev AttributeCon := List AttributeRequest

/-- Disjunction of conjunctions (`AttributeDisCon`). -/
abbrev AttributeDisCon := List AttributeCon

/-- Conjunction of disjunctions of conjunctions (`AttributeConDisCon`). -/
abbrev AttributeConDisCon := List AttributeDisCon

/-- `BTreeMap<String, String>` of locale → label text: modelled as an
association list sorted by key. -/
abbrev LocaleLabels := List (List Char × List Char)

/-- `BTreeMap<usize, BTreeMap<String, String>>`: modelled as an association
list sorted by the numeric key. -/
abbrev Labels := List (Nat × LocaleLabels)

/-- `struct DisclosureRequest` from `request.rs`: the condiscon tree plus
optional labels. -/
structure DisclosureRequest where
  disclose : AttributeConDisCon
  labels : Option Labels

/-- Serialization of `AttributeType` (derived `Serialize`): object with the
four fields in declaration order. -/
def serializeAttributeType (t : AttributeType) : Json :=
  .obj [("scheme".toList, .str t.scheme), ("issuer".toList, .str t.issuer),
        ("credential".toList, .str t.credential),
        ("attribute".toList, .str t.attr)]

/-- Serialization of `Attribute` (derived `Serialize`): the `atype` field is
renamed to `type`; the `value` field is skipped entirely when `None`
(`skip_serializing_if = "Option::is_none"`) and emitted as the bare string
when `Some`. -/
def serializeAttribute (a : Attribute) : Json :=
  .obj (("type".toList, serializeAttributeType a.atype) ::
    (match a.value with
     | none => []
     | some v => [("value".toList, .str v)]))

/-- Serialization of `AttributeRequest` (derived `Serialize`). -/
def serializeAttributeRequest (r : AttributeRequest) : Json :=
  .obj [("attribute".toList, serializeAttribute r.attrReq),
        ("not_null".toList, .bool r.not_null)]

/-- Serialization of the newtype vector wrappers: plain JSON arrays. -/
def serializeAttributeCon (c : AttributeCon) : Json :=
  .arr (c.map serializeAttributeRequest)

def serializeAttributeDisCon (d : AttributeDisCon) : Json :=
  .arr (d.map serializeAttributeCon)

def serializeAttributeConDisCon (cdc : AttributeConDisCon) : Json :=
  .arr (cdc.map serializeAttributeDisCon)

/-- Serialization of the labels map: serde_json writes integer map keys as
decimal strings and `BTreeMap` iterates in key order. -/
def serializeLabels (l : Labels) : Json :=
  .obj (l.map fun kv =>
    ((Nat.repr kv.1).toList,
     .obj (kv.2.map fun lv => (lv.1, Json.str lv.2))))

/-- The fixed `@context` literal written by `DisclosureRequest::serialize`. -/
def contextLiteral : List Char :=
  "https://irma.app/ld/request/disclosure/v2".toList

/-- The hand-written `impl Serialize for DisclosureRequest` from
`request.rs`: emits `@context`, then `disclose`, then `labels` only when the
field is `Some`. -/
def DisclosureRequest.serialize (r : DisclosureRequest) : Json :=
  .obj ([("@context".toList, .str contextLiteral),
         ("disclose".toList, serializeAttributeConDisCon r.disclose)] ++
    (match r.labels with
     | none => []
     | some l => [("labels".toList, serializeLabels l)]))

/-- Top-level keys of a serialized JSON object, in emission order. -/
def topKeys : Json → List (List Char)
  | .obj kvs => kvs.map Prod.fst
  | _ => []

/-- First value bound to a key in a serialized JSON object. -/
def objLookup (kvs : List (List Char × Json)) (key : List Char) :
    Option Json :=
  match kvs with
  | [] => none
  | (k, v) :: rest => if k = key then some v else objLookup rest key

/-! ## Deserialization

Models the serde-derived `Deserialize` impls: a struct is read from a JSON
object by field name, unknown keys (such as `@context`) are ignored, a
missing field of type `Option<T>` defaults to `None`, any other missing
field is an error, and type mismatches are errors. -/

/-- Errors of the generic decoding layer (schema / type mismatch). -/
inductive DeError where
  | typeMismatch
  | missingField
deriving DecidableEq

/-- serde deserialization of a sequence: every element must decode. -/
def exceptMap {α : Type} (f : Json → Except DeError α) :
    List Json → Except DeError (List α)
  | [] => .ok []
  | j :: rest =>
    match f j with
    | .error e => .error e
    | .ok a =>
      match exceptMap f rest with
      | .error e => .error e
      | .ok as => .ok (a :: as)

def deserializeString (j : Json) : Except DeError (List Char) :=
  match j with
  | .str s => .ok s
  | _ => .error .typeMismatch

def deserializeBool (j : Json) : Except DeError Bool :=
  match j with
  | .bool b => .ok b
  | _ => .error .typeMismatch

/-- Derived `Deserialize for AttributeType`: four required string fields. -/
def deserializeAttributeType (j : Json) : Except DeError AttributeType :=
  match j with
  | .obj kvs =>
    match objLookup kvs ("scheme".toList) with
    | none => .error .missingField
    | some sj =>
      match deserializeString sj with
      | .error e => .error e
      | .ok scheme =>
        match objLookup kvs ("issuer".toList) with
        | none => .error .missingField
        | some ij =>
          match deserializeString ij with
          | .error e => .error e
          | .ok issuer =>
            match objLookup kvs ("credential".toList) with
            | none => .error .missingField
            | some cj =>
              match deserializeString cj with
              | .error e => .error e
              | .ok credential =>
                match objLookup kvs ("attribute".toList) with
                | none => .error .missingField
                | some aj =>
                  match deserializeString aj with
                  | .error e => .error e
                  | .ok attr =>
                    .ok { scheme := scheme, issuer := issuer,
                          credential := credential, attr := attr }
  | _ => .error .typeMismatch

/-- Derived `Deserialize for Attribute`: required `type` field (the rename of
`atype`) and optional `value` field, where a missing or null `value` is
`None`. -/
def deserializeAttribute (j : Json) : Except DeError Attribute :=
  match j with
  | .obj kvs =>
    match objLookup kvs ("type".toList) with
    | none => .error .missingField
    | some tj =>
      match deserializeAttributeType tj with
      | .error e => .error e
      | .ok t =>
        match objLookup kvs ("value".toList) with
        | none => .ok { atype := t, value := none }
        | some .null => .ok { atype := t, value := none }
        | some (.str v) => .ok { atype := t, value := some v }
        | some _ => .error .typeMismatch
  | _ => .error .typeMismatch

/-- Derived `Deserialize for AttributeRequest`: required `attribute` and
`not_null` fields. -/
def deserializeAttributeRequest (j : Json) : Except DeError AttributeRequest :=
  match j with
  | .obj kvs =>
    match objLookup kvs ("attribute".toList) with
    | none => .error .missingField
    | some aj =>
      match deserializeAttribute aj with
      | .error e => .error e
      | .ok a =>
        match objLookup kvs ("not_null".toList) with
        | none => .error .missingField
        | some nj =>
          match deserializeBool nj with
          | .error e => .error e
          | .ok n => .ok { attrReq := a, not_null := n }
  | _ => .error .typeMismatch

def deserializeAttributeCon (j : Json) : Except DeError AttributeCon :=
  match j with
  | .arr l => exceptMap deserializeAttributeRequest l
  | _ => .error .typeMismatch

def deserializeAttributeDisCon (j : Json) : Except DeError AttributeDisCon :=
  match j with
  | .arr l => exceptMap deserializeAttributeCon l
  | _ => .error .typeMismatch

def deserializeAttributeConDisCon (j : Json) :
    Except DeError AttributeConDisCon :=
  match j with
  | .arr l => exceptMap deserializeAttributeDisCon l
  | _ => .error .typeMismatch

/-- Decimal digit parsing for serde_json integer map keys. -/
def parseNatDigits : List Char → Nat → Option Nat
  | [], acc => some acc
  | c :: rest, acc =>
    if 48 ≤ c.toNat ∧ c.toNat ≤ 57 then
      parseNatDigits rest (acc * 10 + (c.toNat - 48))
    else none

def parseNat (s : List Char) : Option Nat :=
  match s with
  | [] => none
  | _ => parseNatDigits s 0

/-- Ordered insertion into the `BTreeMap String String` model (duplicate
keys overwrite, matching repeated `insert`). -/
def insertLocale (k v : List Char) : LocaleLabels → LocaleLabels
  | [] => [(k, v)]
  | (k0, v0) :: rest =>
    match strCmp k k0 with
    | .lt => (k, v) :: (k0, v0) :: rest
    | .eq => (k, v) :: rest
    | .gt => (k0, v0) :: insertLocale k v rest

/-- Ordered insertion into the `BTreeMap usize (...)` model. -/
def insertLabel (k : Nat) (v : LocaleLabels) : Labels → Labels
  | [] => [(k, v)]
  | (k0, v0) :: rest =>
    if k < k0 then (k, v) :: (k0, v0) :: rest
    else if k = k0 then (k, v) :: rest
    else (k0, v0) :: insertLabel k v rest

def deserializeLocaleLabels (j : Json) : Except DeError LocaleLabels :=
  match j with
  | .obj kvs =>
    kvs.foldlM (fun acc kv =>
      match deserializeString kv.2 with
      | .error e => .error e
      | .ok v => .ok (insertLocale kv.1 v acc)) []
  | _ => .error .typeMismatch

def deserializeLabels (j : Json) : Except DeError Labels :=
  match j with
  | .obj kvs =>
    kvs.foldlM (fun acc kv =>
      match parseNat kv.1 with
      | none => .error .typeMismatch
      | some k =>
        match deserializeLocaleLabels kv.2 with
        | .error e => .error e
        | .ok v => .ok (insertLabel k v acc)) []
  | _ => .error .typeMismatch

/-- Derived `Deserialize for DisclosureRequest`: reads the required
`disclose` field and the optional `labels` field; every other key —
`@context` included — is ignored. -/
def deserializeDisclosureRequest (j : Json) :
    Except DeError DisclosureRequest :=
  match j with
  | .obj kvs =>
    match objLookup kvs ("disclose".toList) with
    | none => .error .missingField
    | some dj =>
      match deserializeAttributeConDisCon dj with
      | .error e => .error e
      | .ok d =>
        match objLookup kvs ("labels".toList) with
        | none => .ok { disclose := d, labels := none }
        | some .null => .ok { disclose := d, labels := none }
        | some lj =>
          match deserializeLabels lj with
          | .error e => .error e
          | .ok l => .ok { disclose := d, labels := some l }
  | _ => .error .typeMismatch

/-- Field lookup on a serialized JSON object. -/
def jsonField (j : Json) (key : List Char) : Option Json :=
  match j with
  | .obj kvs => objLookup kvs key
  | _ => none

/-- The attribute type parsed from `pbdf.pbdf.email.email`. -/
def pbdfEmailEmail : AttributeType :=
  { scheme := "pbdf".toList, issuer := "pbdf".toList,
    credential := "email".toList, attr := "email".toList }

/-- The attribute type parsed from `pbdf.pbdf.email.domain`. -/
def pbdfEmailDomain : AttributeType :=
  { scheme := "pbdf".toList, issuer := "pbdf".toList,
    credential := "email".toList, attr := "domain".toList }

/-- The attribute type parsed from `pbdf.pbdf.fmail.email`. -/
def pbdfFmailEmail : AttributeType :=
  { scheme := "pbdf".toList, issuer := "pbdf".toList,
    credential := "fmail".toList, attr := "email".toList }

/-! ## Theorems -/

/-! ## Comparator lemmas -/

theorem charCmp_self (a : Char) : charCmp a a = .eq := by
  simp [charCmp]

theorem charCmp_swap (a b : Char) : (charCmp a b).swap = charCmp b a := by
  unfold charCmp
  split_ifs <;> first | rfl | omega

theorem charCmp_eq_iff (a b : Char) : charCmp a b = .eq ↔ a.toNat = b.toNat := by
  unfold charCmp
  split_ifs <;> simp <;> omega

theorem charCmp_lt_iff (a b : Char) : charCmp a b = .lt ↔ a.toNat < b.toNat := by
  unfold charCmp
  split_ifs <;> simp <;> omega

theorem charCmp_eq_congr {a b : Char} (c : Char) (h : charCmp a b = .eq) :
    charCmp a c = charCmp b c := by
  rw [charCmp_eq_iff] at h
  unfold charCmp
  rw [h]

theorem charCmp_lt_trans {a b c : Char} (h₁ : charCmp a b = .lt)
    (h₂ : charCmp b c = .lt) : charCmp a c = .lt := by
  rw [charCmp_lt_iff] at *
  omega

theorem strCmp_self (s : List Char) : strCmp s s = .eq := by
  induction s with
  | nil => rfl
  | cons a as ih => simp [strCmp, charCmp_self, ih]

theorem strCmp_swap (s t : List Char) : (strCmp s t).swap = strCmp t s := by
  induction s generalizing t with
  | nil => cases t <;> rfl
  | cons a as ih =>
    cases t with
    | nil => rfl
    | cons b bs =>
      simp only [strCmp, ← charCmp_swap a b]
      cases charCmp a b with
      | lt => rfl
      | gt => rfl
      | eq => exact ih bs

theorem strCmp_eq_congr {s t : List Char} (u : List Char)
    (h : strCmp s t = .eq) : strCmp s u = strCmp t u := by
  induction s generalizing t u with
  | nil =>
    cases t with
    | nil => rfl
    | cons b bs => simp [strCmp] at h
  | cons a as ih =>
    cases t with
    | nil => simp [strCmp] at h
    | cons b bs =>
      simp only [strCmp] at h
      cases hab : charCmp a b with
      | lt => rw [hab] at h; simp at h
      | gt => rw [hab] at h; simp at h
      | eq =>
        rw [hab] at h
        replace h : strCmp as bs = .eq := h
        cases u with
        | nil => rfl
        | cons c cs =>
          simp only [strCmp, charCmp_eq_congr c hab]
          cases charCmp b c with
          | lt => rfl
          | gt => rfl
          | eq => exact ih cs h

theorem strCmp_lt_trans {s t u : List Char} (h₁ : strCmp s t = .lt)
    (h₂ : strCmp t u = .lt) : strCmp s u = .lt := by
  induction s generalizing t u with
  | nil =>
    cases t with
    | nil => simp [strCmp] at h₁
    | cons b bs =>
      cases u with
      | nil => simp [strCmp] at h₂
      | cons c cs => rfl
  | cons a as ih =>
    cases t with
    | nil => simp [strCmp] at h₁
    | cons b bs =>
      cases u with
      | nil => simp [strCmp] at h₂
      | cons c cs =>
        simp only [strCmp] at h₁ h₂ ⊢
        cases hab : charCmp a b with
        | gt => rw [hab] at h₁; simp at h₁
        | lt =>
          cases hbc : charCmp b c with
          | gt => rw [hbc] at h₂; simp at h₂
          | lt =>
            rw [charCmp_lt_trans hab hbc]
          | eq =>
            have hac : charCmp a c = .lt := by
              rw [charCmp_lt_iff] at hab ⊢
              rw [charCmp_eq_iff] at hbc
              omega
            rw [hac]
        | eq =>
          rw [hab] at h₁
          replace h₁ : strCmp as bs = .lt := h₁
          cases hbc : charCmp b c with
          | gt => rw [hbc] at h₂; simp at h₂
          | lt =>
            rw [charCmp_eq_congr c hab, hbc]
          | eq =>
            rw [hbc] at h₂
            replace h₂ : strCmp bs cs = .lt := h₂
            have hac : charCmp a c = .eq := by
              rw [charCmp_eq_iff] at hab hbc ⊢
              omega
            rw [hac]
            exact ih h₁ h₂

theorem LawfulCmp.eq_congr_right {α : Type} {f : α → α → Ordering}
    (hf : LawfulCmp f) {a b : α} (c : α) (h : f a b = .eq) :
    f c a = f c b := by
  rw [← hf.swap_eq a c, ← hf.swap_eq b c, hf.eq_congr c h]

theorem LawfulCmp.lt_iff_gt {α : Type} {f : α → α → Ordering}
    (hf : LawfulCmp f) (a b : α) : f a b = .lt ↔ f b a = .gt := by
  rw [← hf.swap_eq a b]
  cases f a b <;> simp [Ordering.swap]

theorem LawfulCmp.eq_iff_eq {α : Type} {f : α → α → Ordering}
    (hf : LawfulCmp f) (a b : α) : f a b = .eq ↔ f b a = .eq := by
  rw [← hf.swap_eq a b]
  cases f a b <;> simp [Ordering.swap]

theorem LawfulCmp.eq_trans {α : Type} {f : α → α → Ordering}
    (hf : LawfulCmp f) {a b c : α} (h₁ : f a b = .eq) (h₂ : f b c = .eq) :
    f a c = .eq := by
  rw [hf.eq_congr c h₁]
  exact h₂

theorem LawfulCmp.gt_trans {α : Type} {f : α → α → Ordering}
    (hf : LawfulCmp f) {a b c : α} (h₁ : f a b = .gt) (h₂ : f b c = .gt) :
    f a c = .gt := by
  rw [← hf.lt_iff_gt] at h₁ h₂ ⊢
  exact hf.lt_trans h₂ h₁

theorem strCmp_lawful : LawfulCmp strCmp where
  refl := strCmp_self
  swap_eq := strCmp_swap
  eq_congr := strCmp_eq_congr
  lt_trans := strCmp_lt_trans

theorem LawfulCmp.comap {α β : Type} {f : β → β → Ordering}
    (hf : LawfulCmp f) (p : α → β) :
    LawfulCmp (fun a b => f (p a) (p b)) where
  refl a := hf.refl (p a)
  swap_eq a b := hf.swap_eq (p a) (p b)
  eq_congr c h := hf.eq_congr (p c) h
  lt_trans h₁ h₂ := hf.lt_trans h₁ h₂

theorem LawfulCmp.lex {α : Type} {f g : α → α → Ordering}
    (hf : LawfulCmp f) (hg : LawfulCmp g) : LawfulCmp (lexCmp f g) where
  refl a := by simp [lexCmp, hf.refl, hg.refl]
  swap_eq a b := by
    unfold lexCmp
    rw [← hf.swap_eq a b]
    cases f a b with
    | lt => rfl
    | gt => rfl
    | eq => exact hg.swap_eq a b
  eq_congr := by
    intro a b c h
    unfold lexCmp at h ⊢
    cases hab : f a b with
    | lt => rw [hab] at h; simp at h
    | gt => rw [hab] at h; simp at h
    | eq =>
      rw [hab] at h
      replace h : g a b = .eq := h
      rw [hf.eq_congr c hab]
      cases f b c with
      | lt => rfl
      | gt => rfl
      | eq => exact hg.eq_congr c h
  lt_trans := by
    intro a b c h₁ h₂
    unfold lexCmp at h₁ h₂ ⊢
    cases hab : f a b with
    | gt => rw [hab] at h₁; simp at h₁
    | lt =>
      cases hbc : f b c with
      | gt => rw [hbc] at h₂; simp at h₂
      | lt => rw [hf.lt_trans hab hbc]
      | eq =>
        have : f a c = .lt := by rw [hf.eq_congr_right a hbc] at hab; exact hab
        rw [this]
    | eq =>
      rw [hab] at h₁
      replace h₁ : g a b = .lt := h₁
      cases hbc : f b c with
      | gt => rw [hbc] at h₂; simp at h₂
      | lt =>
        rw [hf.eq_congr c hab, hbc]
      | eq =>
        rw [hbc] at h₂
        replace h₂ : g b c = .lt := h₂
        rw [hf.eq_trans hab hbc]
        exact hg.lt_trans h₁ h₂

/-- `AttributeType.cmp` agrees pointwise with the lexicographic combination
of the four field comparators. -/
theorem attrTypeCmp_eq_lex (a b : AttributeType) :
    AttributeType.cmp a b =
      lexCmp (fun x y => strCmp x.scheme y.scheme)
        (lexCmp (fun x y => strCmp x.issuer y.issuer)
          (lexCmp (fun x y => strCmp x.credential y.credential)
            (fun x y => strCmp x.attr y.attr))) a b := rfl

theorem attrTypeCmp_lawful : LawfulCmp AttributeType.cmp := by
  have h := ((strCmp_lawful.comap AttributeType.scheme).lex
    ((strCmp_lawful.comap AttributeType.issuer).lex
      ((strCmp_lawful.comap AttributeType.credential).lex
        (strCmp_lawful.comap AttributeType.attr))))
  exact { refl := fun a => (attrTypeCmp_eq_lex a a).symm ▸ h.refl a
          swap_eq := fun a b => by
            rw [attrTypeCmp_eq_lex a b, attrTypeCmp_eq_lex b a]
            exact h.swap_eq a b
          eq_congr := fun {a b} c hab => by
            rw [attrTypeCmp_eq_lex a b] at hab
            rw [attrTypeCmp_eq_lex a c, attrTypeCmp_eq_lex b c]
            exact h.eq_congr c hab
          lt_trans := fun {a b c} h₁ h₂ => by
            rw [attrTypeCmp_eq_lex] at h₁ h₂ ⊢
            exact h.lt_trans h₁ h₂ }

/-! ## Split / join lemmas -/

theorem splitDot_ne_nil (s : List Char) : splitDot s ≠ [] := by
  cases s with
  | nil => simp [splitDot]
  | cons c rest =>
    simp only [splitDot]
    split <;> simp

theorem joinDot_cons_head (c : Char) (groups : List (List Char))
    (h : groups ≠ []) :
    joinDot ((c :: groups.headI) :: groups.tail) = c :: joinDot groups := by
  cases groups with
  | nil => exact absurd rfl h
  | cons g gs =>
    cases gs with
    | nil => rfl
    | cons g2 gs2 => simp [joinDot, List.headI]

theorem joinDot_splitDot (s : List Char) : joinDot (splitDot s) = s := by
  induction s with
  | nil => rfl
  | cons c rest ih =>
    simp only [splitDot]
    by_cases hc : c = '.'
    · subst hc
      simp only [if_pos rfl]
      obtain ⟨g, gs, hg⟩ := List.exists_cons_of_ne_nil (splitDot_ne_nil rest)
      rw [hg] at ih ⊢
      simpa [joinDot] using ih
    · rw [if_neg hc, joinDot_cons_head c _ (splitDot_ne_nil rest), ih]

theorem objLookup_cons_ne {k0 key : List Char} (h : k0 ≠ key)
    (v : Json) (kvs : List (List Char × Json)) :
    objLookup ((k0, v) :: kvs) key = objLookup kvs key := by
  simp [objLookup, h]

/-! ## Claims -/

/-- C1: for every input string whose split on the dot character yields a
number of segments different from four, `Attribute::new` fails with the
`NotAnAttributeTypeIdentifier` error, and for every string splitting into
exactly four segments it succeeds. -/
theorem attribute_new_arity (s : List Char) (v : Option (List Char)) :
    ((splitDot s).length ≠ 4 →
      Attribute.new s v = .error .NotAnAttributeTypeIdentifier) ∧
    ((splitDot s).length = 4 → ∃ a, Attribute.new s v = .ok a) := by
  constructor <;> intro h <;>
    rcases hs : splitDot s with
      _ | ⟨g1, _ | ⟨g2, _ | ⟨g3, _ | ⟨g4, _ | ⟨g5, gs⟩⟩⟩⟩⟩ <;>
    rw [hs] at h <;> simp_all [Attribute.new, hs]

theorem attribute_new_arity_witness :
    Attribute.new ("a.b.c".toList) none =
      .error .NotAnAttributeTypeIdentifier ∧
    (∃ a, Attribute.new ("a.b.c.d".toList) none = .ok a) :=
  ⟨(attribute_new_arity ("a.b.c".toList) none).1 (by decide),
   (attribute_new_arity ("a.b.c.d".toList) none).2 (by decide)⟩

/-- C3 counterexample: `"a..c.d"` splits into exactly four segments, one of
them empty, and `Attribute::new` succeeds with an empty `issuer` component,
contradicting the claim that construction never succeeds with an empty
component. -/
theorem attribute_new_empty_segment :
    Attribute.new ("a..c.d".toList) none =
      .ok { atype := { scheme := "a".toList, issuer := [],
                       credential := "c".toList, attr := "d".toList },
            value := none } := by rfl

/-- C3 (amended): an `AttributeType` is never constructed by `Attribute::new`
except from an identifier splitting into exactly four dot-separated
segments, whose contents become the four components verbatim; segments may
be empty, since only the segment count is validated. -/
theorem attribute_new_segments (s : List Char) (v : Option (List Char))
    (a : Attribute) (h : Attribute.new s v = .ok a) :
    splitDot s = [a.atype.scheme, a.atype.issuer, a.atype.credential,
      a.atype.attr] ∧ a.value = v := by
  unfold Attribute.new at h
  rcases hs : splitDot s with
    _ | ⟨g1, _ | ⟨g2, _ | ⟨g3, _ | ⟨g4, _ | ⟨g5, gs⟩⟩⟩⟩⟩ <;>
    rw [hs] at h
  all_goals try exact Except.noConfusion h
  injection h with h2
  subst h2
  exact ⟨rfl, rfl⟩

theorem attribute_new_segments_witness :
    splitDot ("a..c.d".toList) = ["a".toList, [], "c".toList, "d".toList] ∧
    (({ atype := { scheme := "a".toList, issuer := [],
                   credential := "c".toList, attr := "d".toList },
        value := none } : Attribute)).value = none :=
  attribute_new_segments ("a..c.d".toList) none _ rfl

/-- C4 counterexample: two `AttributeRequest` values with identical
`Attribute` fields but different `not_null` flags compare as `Less`, not
`Equal`: the derived `Ord` does not ignore `not_null`. -/
theorem attrRequest_cmp_not_null_counterexample :
    AttributeRequest.cmp
      { attrReq := { atype := pbdfEmailEmail, value := none },
        not_null := false }
      { attrReq := { atype := pbdfEmailEmail, value := none },
        not_null := true } = .lt ∧
    Attribute.cmp { atype := pbdfEmailEmail, value := none }
      { atype := pbdfEmailEmail, value := none } = .eq := by
  constructor <;> rfl

/-- C4 (amended): the derived `Ord` on `AttributeRequest` compares the
`Attribute` field first — through `Attribute`'s custom `Ord`, which ignores
`value` — and then breaks ties on `not_null` (false < true); it does not
ignore `not_null`: requests comparing `.eq` necessarily agree on it. -/
theorem attrRequest_cmp_amended (a b : AttributeRequest) :
    (a.attrReq.atype = b.attrReq.atype →
      AttributeRequest.cmp a b = boolCmp a.not_null b.not_null) ∧
    (AttributeRequest.cmp a b = .eq → a.not_null = b.not_null) ∧
    (Attribute.cmp a.attrReq b.attrReq ≠ .eq →
      AttributeRequest.cmp a b = Attribute.cmp a.attrReq b.attrReq) := by
  refine ⟨fun h => ?_, fun h => ?_, fun h => ?_⟩
  · have he : Attribute.cmp a.attrReq b.attrReq = .eq := by
      unfold Attribute.cmp
      rw [h]
      exact attrTypeCmp_lawful.refl _
    unfold AttributeRequest.cmp
    rw [he]
  · unfold AttributeRequest.cmp at h
    cases hc : Attribute.cmp a.attrReq b.attrReq <;> rw [hc] at h
    · simp at h
    · replace h : boolCmp a.not_null b.not_null = .eq := h
      cases ha : a.not_null <;> cases hb : b.not_null <;>
        rw [ha, hb] at h <;> simp_all [boolCmp]
    · simp at h
  · unfold AttributeRequest.cmp
    cases hc : Attribute.cmp a.attrReq b.attrReq
    · rfl
    · exact absurd hc h
    · rfl

theorem attrRequest_cmp_amended_witness :
    AttributeRequest.cmp
      { attrReq := { atype := pbdfEmailEmail, value := none },
        not_null := false }
      { attrReq := { atype := pbdfEmailEmail, value := some ("x".toList) },
        not_null := true } = boolCmp false true :=
  (attrRequest_cmp_amended _ _).1 rfl

/-- C5: `AttributeType.cmp` is strict lexicographic over the 4-tuple
(scheme, issuer, credential, attribute) in that order under string
comparison, and on the attributes parsed from `pbdf.pbdf.email.email` and
`pbdf.pbdf.email.domain` it returns `Greater`, while on those parsed from
`pbdf.pbdf.email.domain` and `pbdf.pbdf.fmail.email` it returns `Less`. -/
theorem attrTypeCmp_lexicographic :
    (∀ a b : AttributeType,
      (strCmp a.scheme b.scheme ≠ .eq →
        AttributeType.cmp a b = strCmp a.scheme b.scheme) ∧
      (strCmp a.scheme b.scheme = .eq → strCmp a.issuer b.issuer ≠ .eq →
        AttributeType.cmp a b = strCmp a.issuer b.issuer) ∧
      (strCmp a.scheme b.scheme = .eq → strCmp a.issuer b.issuer = .eq →
        strCmp a.credential b.credential ≠ .eq →
        AttributeType.cmp a b = strCmp a.credential b.credential) ∧
      (strCmp a.scheme b.scheme = .eq → strCmp a.issuer b.issuer = .eq →
        strCmp a.credential b.credential = .eq →
        AttributeType.cmp a b = strCmp a.attr b.attr)) ∧
    (∃ a1 a2 : Attribute,
      Attribute.new ("pbdf.pbdf.email.email".toList) none = .ok a1 ∧
      Attribute.new ("pbdf.pbdf.email.domain".toList) none = .ok a2 ∧
      Attribute.cmp a1 a2 = .gt) ∧
    (∃ a2 a3 : Attribute,
      Attribute.new ("pbdf.pbdf.email.domain".toList) none = .ok a2 ∧
      Attribute.new ("pbdf.pbdf.fmail.email".toList) none = .ok a3 ∧
      Attribute.cmp a2 a3 = .lt) := by
  refine ⟨fun a b => ?_, ⟨_, _, rfl, rfl, by decide⟩,
    ⟨_, _, rfl, rfl, by decide⟩⟩
  unfold AttributeType.cmp
  cases h1 : strCmp a.scheme b.scheme <;>
    cases h2 : strCmp a.issuer b.issuer <;>
    cases h3 : strCmp a.credential b.credential <;>
    simp [h1, h2, h3]

theorem attrTypeCmp_lexicographic_witness :
    AttributeType.cmp pbdfEmailDomain pbdfFmailEmail =
      strCmp pbdfEmailDomain.credential pbdfFmailEmail.credential :=
  ((attrTypeCmp_lexicographic.1 pbdfEmailDomain pbdfFmailEmail).2.2.1
    (by decide) (by decide) (by decide))

/-- C6: `AttributeType.cmp` is a total order: reflexively `Equal`, `cmp a b`
and `cmp b a` are inverses, and `cmp` is transitive at each outcome. -/
theorem attrTypeCmp_total_order :
    (∀ a : AttributeType, AttributeType.cmp a a = .eq) ∧
    (∀ a b : AttributeType,
      (AttributeType.cmp a b = .lt ↔ AttributeType.cmp b a = .gt) ∧
      (AttributeType.cmp a b = .eq ↔ AttributeType.cmp b a = .eq)) ∧
    (∀ a b c : AttributeType,
      (AttributeType.cmp a b = .lt → AttributeType.cmp b c = .lt →
        AttributeType.cmp a c = .lt) ∧
      (AttributeType.cmp a b = .eq → AttributeType.cmp b c = .eq →
        AttributeType.cmp a c = .eq) ∧
      (AttributeType.cmp a b = .gt → AttributeType.cmp b c = .gt →
        AttributeType.cmp a c = .gt)) :=
  ⟨attrTypeCmp_lawful.refl,
   fun a b => ⟨attrTypeCmp_lawful.lt_iff_gt a b,
     attrTypeCmp_lawful.eq_iff_eq a b⟩,
   fun _ _ _ => ⟨fun h₁ h₂ => attrTypeCmp_lawful.lt_trans h₁ h₂,
     fun h₁ h₂ => attrTypeCmp_lawful.eq_trans h₁ h₂,
     fun h₁ h₂ => attrTypeCmp_lawful.gt_trans h₁ h₂⟩⟩

theorem attrTypeCmp_total_order_witness :
    AttributeType.cmp pbdfEmailDomain pbdfFmailEmail = .lt :=
  (attrTypeCmp_total_order.2.2 pbdfEmailDomain pbdfEmailEmail
    pbdfFmailEmail).1 (by decide) (by decide)

/-- C7: two `Attribute` values with identical `AttributeType` components but
different `value` fields compare as `Equal` under `cmp` but as unequal under
the derived equality comparison. -/
theorem attribute_cmp_ignores_value (a b : Attribute)
    (h₁ : a.atype = b.atype) (h₂ : a.value ≠ b.value) :
    Attribute.cmp a b = .eq ∧ Attribute.beq a b = false := by
  constructor
  · unfold Attribute.cmp
    rw [h₁]
    exact attrTypeCmp_lawful.refl _
  · unfold Attribute.beq
    have hv : (a.value == b.value) = false := by
      simpa using h₂
    simp [hv]

theorem attribute_cmp_ignores_value_witness :
    Attribute.cmp { atype := pbdfEmailEmail, value := none }
      { atype := pbdfEmailEmail, value := some ("x".toList) } = .eq ∧
    Attribute.beq { atype := pbdfEmailEmail, value := none }
      { atype := pbdfEmailEmail, value := some ("x".toList) } = false :=
  attribute_cmp_ignores_value _ _ rfl (by decide)

/-- C8: every string splitting into exactly four dot-separated segments is
parsed successfully by `Attribute::new`, and re-joining the four resulting
components with dots reproduces the input exactly. -/
theorem attribute_new_roundtrip (s : List Char) (v : Option (List Char))
    (h : (splitDot s).length = 4) :
    ∃ a, Attribute.new s v = .ok a ∧
      a.atype.scheme ++ '.' :: (a.atype.issuer ++ '.' ::
        (a.atype.credential ++ '.' :: a.atype.attr)) = s := by
  rcases hs : splitDot s with
    _ | ⟨g1, _ | ⟨g2, _ | ⟨g3, _ | ⟨g4, _ | ⟨g5, gs⟩⟩⟩⟩⟩ <;>
    rw [hs] at h <;> simp at h
  refine ⟨{ atype := { scheme := g1, issuer := g2, credential := g3,
                       attr := g4 }, value := v }, ?_, ?_⟩
  · unfold Attribute.new
    rw [hs]
  · have hj := joinDot_splitDot s
    rw [hs] at hj
    simpa [joinDot] using hj

theorem attribute_new_roundtrip_witness :
    ∃ a, Attribute.new ("pbdf.pbdf.email.email".toList) none = .ok a ∧
      a.atype.scheme ++ '.' :: (a.atype.issuer ++ '.' ::
        (a.atype.credential ++ '.' :: a.atype.attr)) =
        "pbdf.pbdf.email.email".toList :=
  attribute_new_roundtrip ("pbdf.pbdf.email.email".toList) none (by decide)

/-- C10: the derived `PartialOrd` on `Attribute` compares `value` after the
type and is therefore inconsistent with the custom `Ord`: there are
attributes with identical `AttributeType` but different `value` on which
`partial_cmp` disagrees with `some (cmp ...)`. -/
theorem attribute_pOrd_cmp_mismatch :
    ∃ a b : Attribute, a.atype = b.atype ∧ a.value ≠ b.value ∧
      Attribute.pOrdCmp a b ≠ some (Attribute.cmp a b) :=
  ⟨{ atype := pbdfEmailEmail, value := none },
   { atype := pbdfEmailEmail, value := some ("x".toList) },
   rfl, by decide, by decide⟩

/-- C2: serializing a `DisclosureRequest` with `labels = None` yields exactly
the keys `@context` and `disclose` in that order, with `@context` bound to
the fixed context literal; with `labels = Some` it yields exactly
`@context`, `disclose`, `labels` in that order; and a serialized `Attribute`
with `value = None` omits the `value` key entirely. -/
theorem disclosure_serialize_shape (r : DisclosureRequest) (a : Attribute) :
    (r.labels = none →
      topKeys r.serialize = ["@context".toList, "disclose".toList]) ∧
    (∀ l, r.labels = some l →
      topKeys r.serialize =
        ["@context".toList, "disclose".toList, "labels".toList]) ∧
    jsonField r.serialize ("@context".toList) =
      some (.str contextLiteral) ∧
    (a.value = none →
      ¬ ("value".toList ∈ topKeys (serializeAttribute a))) := by
  refine ⟨fun h => ?_, fun l h => ?_, ?_, fun h => ?_⟩
  · simp [DisclosureRequest.serialize, topKeys, h]
  · simp [DisclosureRequest.serialize, topKeys, h]
  · cases h : r.labels <;>
      simp [DisclosureRequest.serialize, jsonField, objLookup, h]
  · simp only [serializeAttribute, topKeys, h, List.map_cons, List.map_nil,
      List.mem_singleton]
    decide

theorem disclosure_serialize_shape_witness :
    topKeys (DisclosureRequest.serialize { disclose := [], labels := none }) =
      ["@context".toList, "disclose".toList] ∧
    topKeys (DisclosureRequest.serialize
        { disclose := [], labels := some [] }) =
      ["@context".toList, "disclose".toList, "labels".toList] ∧
    ¬ ("value".toList ∈ topKeys
        (serializeAttribute { atype := pbdfEmailEmail, value := none })) :=
  ⟨(disclosure_serialize_shape { disclose := [], labels := none }
      { atype := pbdfEmailEmail, value := none }).1 rfl,
   (disclosure_serialize_shape { disclose := [], labels := some [] }
      { atype := pbdfEmailEmail, value := none }).2.1 [] rfl,
   (disclosure_serialize_shape { disclose := [], labels := none }
      { atype := pbdfEmailEmail, value := none }).2.2.2 rfl⟩

/-- C9: deserializing a `DisclosureRequest` ignores the `@context` key — an
object with it and the same object without it deserialize to the same
result — and a missing `labels` key yields `labels = none`. -/
theorem disclosure_deserialize_context (v : Json)
    (kvs : List (List Char × Json)) :
    deserializeDisclosureRequest (.obj (("@context".toList, v) :: kvs)) =
      deserializeDisclosureRequest (.obj kvs) ∧
    (objLookup kvs ("labels".toList) = none →
      ∀ r, deserializeDisclosureRequest (.obj kvs) = .ok r →
        r.labels = none) := by
  constructor
  · simp only [deserializeDisclosureRequest]
    rw [objLookup_cons_ne (show "@context".toList ≠ "disclose".toList by
      decide),
      objLookup_cons_ne (show "@context".toList ≠ "labels".toList by
      decide)]
  · intro hl r h
    simp only [deserializeDisclosureRequest] at h
    split at h
    · exact Except.noConfusion h
    · split at h
      · exact Except.noConfusion h
      · rw [hl] at h
        injection h with h2
        subst h2
        rfl

theorem disclosure_deserialize_context_witness :
    deserializeDisclosureRequest
        (.obj [("@context".toList, .str contextLiteral),
               ("disclose".toList, .arr [])]) =
      deserializeDisclosureRequest (.obj [("disclose".toList, .arr [])]) ∧
    ({ disclose := [], labels := none } : DisclosureRequest).labels = none :=
  ⟨(disclosure_deserialize_context (.str contextLiteral)
      [("disclose".toList, .arr [])]).1,
   (disclosure_deserialize_context (.str contextLiteral)
      [("disclose".toList, .arr [])]).2 rfl
      { disclose := [], labels := none } rfl⟩
